import Mathlib

/-!
Verification of the asoforge core subsystems against their natural-language
specification.  The definitions below are a shallow embedding of the
TypeScript source (src/services/geminiService.ts, src/components/Layout.tsx,
src/components/FinalizeView.tsx, src/components/AnalysisView.tsx,
src/types.ts); strings are modelled as Lean `String`/`List Char`, JS numbers
as `Nat`/`Int` (no arithmetic overflow is relevant to the claims), thrown JS
errors as `Except`/sum results, and `undefined`/missing values as `Option`.
All recursive scanners take an explicit fuel argument (initialised to the
input length plus one, which is always sufficient since every step consumes
at least one character) so that every definition reduces by kernel
computation.
-/

namespace AsoForge

/-! ## Character classes (modelling the JS regexes' character sets, ASCII) -/

/-- `[0-9A-Fa-f]` of the JS regexes in `parseJSON`. -/
def isHexCh (c : Char) : Bool :=
  (('0' ≤ c) && (c ≤ '9')) || (('a' ≤ c) && (c ≤ 'f')) || (('A' ≤ c) && (c ≤ 'F'))

/-- JS `\s` / `String.prototype.trim` whitespace: TAB LF VT FF CR SP, NBSP
(U+00A0), U+1680, the U+2000-U+200A range, the line/paragraph separators
U+2028/U+2029, U+202F, U+205F, U+3000 and the BOM U+FEFF - the full
ECMAScript WhiteSpace and LineTerminator set. -/
def isJsWs (c : Char) : Bool :=
  c = '\t' || c = '\n' || c = '\x0b' || c = '\x0c' || c = '\r' || c = ' ' ||
  c.toNat = 0xa0 || c.toNat = 0x1680 ||
  (0x2000 <= c.toNat && c.toNat <= 0x200a) ||
  c.toNat = 0x2028 || c.toNat = 0x2029 || c.toNat = 0x202f ||
  c.toNat = 0x205f || c.toNat = 0x3000 || c.toNat = 0xfeff

/-- Strict JSON grammar whitespace (`JSON.parse` insignificant whitespace). -/
def isJsonWs (c : Char) : Bool :=
  c = ' ' || c = '\t' || c = '\n' || c = '\r'

def isDigitCh (c : Char) : Bool := ('0' ≤ c) && (c ≤ '9')

/-- Numeric value of a hex digit (for `\uXXXX` escape decoding). -/
def hexVal (c : Char) : Nat :=
  if ('0' ≤ c) && (c ≤ '9') then c.toNat - 48
  else if ('a' ≤ c) && (c ≤ 'f') then c.toNat - 87
  else c.toNat - 55

/-! ## The JSON value domain and a model of `JSON.parse`

`JSON.parse` is modelled as a total computable parser over `List Char`.
Numbers keep their source lexeme (both sides of every comparison in this
development go through the same parser, so the lexeme representation is
consistent). -/

inductive JValue where
  | jnull
  | jbool (b : Bool)
  | jnum (lexeme : String)
  | jstr (s : String)
  | jarr (elems : List JValue)
  | jobj (members : List (String × JValue))

def skipWs (cs : List Char) : List Char := cs.dropWhile isJsonWs

/-- Lex one JSON number (strict grammar: optional minus, `0` or a nonzero
digit followed by digits, optional fraction, optional exponent).  Returns the
lexeme and the rest of the input. -/
def lexNumber (cs : List Char) : Option (List Char × List Char) :=
  let (sign, cs1) :=
    match cs with
    | '-' :: rest => ([('-' : Char)], rest)
    | _ => ([], cs)
  match cs1 with
  | '0' :: rest => some (finish sign ['0'] rest)
  | c :: rest =>
    if isDigitCh c && c ≠ '0' then
      let ds := rest.takeWhile isDigitCh
      some (finish sign (c :: ds) (rest.drop ds.length))
    else none
  | [] => none
where
  /-- Consume the optional fraction and exponent after the integer part. -/
  finish (sign intPart : List Char) (rest : List Char) : List Char × List Char :=
    let (fracPart, rest1) :=
      match rest with
      | '.' :: r =>
        let ds := r.takeWhile isDigitCh
        if ds.length > 0 then (('.' : Char) :: ds, r.drop ds.length) else ([], rest)
      | _ => ([], rest)
    let (expPart, rest2) :=
      match rest1 with
      | c :: r =>
        if c = 'e' || c = 'E' then
          let (sgn, r1) :=
            match r with
            | s :: r' => if s = '+' || s = '-' then ([s], r') else ([], r)
            | [] => ([], r)
          let ds := r1.takeWhile isDigitCh
          if ds.length > 0 then (c :: (sgn ++ ds), r1.drop ds.length) else ([], rest1)
        else ([], rest1)
      | [] => ([], rest1)
    (sign ++ intPart ++ fracPart ++ expPart, rest2)

/-- Parse the body of a JSON string literal (after the opening quote), with
the strict-grammar escapes; rejects raw control characters. -/
def lexStringBody : Nat → List Char → Option (List Char × List Char)
  | 0, _ => none
  | _, [] => none
  | fuel + 1, c :: rest =>
    if c = '"' then some ([], rest)
    else if c = '\\' then
      match rest with
      | 'u' :: h1 :: h2 :: h3 :: h4 :: r =>
        if isHexCh h1 && isHexCh h2 && isHexCh h3 && isHexCh h4 then
          (lexStringBody fuel r).map fun (s, r') =>
            (Char.ofNat (hexVal h1 * 4096 + hexVal h2 * 256 +
              hexVal h3 * 16 + hexVal h4) :: s, r')
        else none
      | e :: r =>
        let esc : Option Char :=
          if e = '"' then some '"'
          else if e = '\\' then some '\\'
          else if e = '/' then some '/'
          else if e = 'b' then some '\x08'
          else if e = 'f' then some '\x0c'
          else if e = 'n' then some '\n'
          else if e = 'r' then some '\r'
          else if e = 't' then some '\t'
          else none
        match esc with
        | some ch => (lexStringBody fuel r).map fun (s, r') => (ch :: s, r')
        | none => none
      | [] => none
    else if c.toNat < 32 then none
    else (lexStringBody fuel rest).map fun (s, r') => (c :: s, r')

mutual

/-- Parse one JSON value at the head of the input (leading whitespace already
skipped); returns the value and the unconsumed rest. -/
def parseValue : Nat → List Char → Option (JValue × List Char)
  | 0, _ => none
  | fuel + 1, cs =>
    match cs with
    | 'n' :: 'u' :: 'l' :: 'l' :: rest => some (.jnull, rest)
    | 't' :: 'r' :: 'u' :: 'e' :: rest => some (.jbool true, rest)
    | 'f' :: 'a' :: 'l' :: 's' :: 'e' :: rest => some (.jbool false, rest)
    | '"' :: rest =>
      (lexStringBody (rest.length + 1) rest).map fun (s, r) => (.jstr (String.mk s), r)
    | '[' :: rest =>
      (match skipWs rest with
       | ']' :: r => some (.jarr [], r)
       | cs' => (parseItems fuel cs').map fun (xs, r) => (.jarr xs, r))
    | '{' :: rest =>
      (match skipWs rest with
       | '}' :: r => some (.jobj [], r)
       | cs' => (parseMembers fuel cs').map fun (ms, r) => (.jobj ms, r))
    | _ =>
      (lexNumber cs).map fun (lex, r) => (.jnum (String.mk lex), r)

/-- Parse a nonempty comma-separated list of array items up to `]`. -/
def parseItems : Nat → List Char → Option (List JValue × List Char)
  | 0, _ => none
  | fuel + 1, cs =>
    match parseValue fuel cs with
    | none => none
    | some (v, rest) =>
      match skipWs rest with
      | ']' :: r => some ([v], r)
      | ',' :: r =>
        (parseItems fuel (skipWs r)).map fun (xs, r') => (v :: xs, r')
      | _ => none

/-- Parse a nonempty comma-separated list of object members up to `}`. -/
def parseMembers : Nat → List Char → Option (List (String × JValue) × List Char)
  | 0, _ => none
  | fuel + 1, cs =>
    match cs with
    | '"' :: rest =>
      match lexStringBody (rest.length + 1) rest with
      | none => none
      | some (k, rest1) =>
        match skipWs rest1 with
        | ':' :: rest2 =>
          match parseValue fuel (skipWs rest2) with
          | none => none
          | some (v, rest3) =>
            match skipWs rest3 with
            | '}' :: r => some ([(String.mk k, v)], r)
            | ',' :: r =>
              (parseMembers fuel (skipWs r)).map fun (ms, r') =>
                ((String.mk k, v) :: ms, r')
            | _ => none
        | _ => none
    | _ => none

end

/-- Model of strict `JSON.parse`: parse one value, allowing surrounding
whitespace, demanding the whole input be consumed. -/
def jsonParse (s : String) : Option JValue :=
  match parseValue (s.data.length + 1) (skipWs s.data) with
  | some (v, rest) => if skipWs rest = [] then some v else none
  | none => none

/-! ## The Response Normalizer's repair pipeline (`parseJSON`)

Source: `src/services/geminiService.ts`, lines 280-302. -/

/-- `text.replace(/```json\n?|```/g, '')`: delete every occurrence of
"```json" (with one optional following newline) or "```", scanning left to
right, the longer alternative tried first at each position. -/
def stripFencesAux : Nat → List Char → List Char
  | 0, cs => cs
  | _, [] => []
  | fuel + 1, cs =>
    match cs with
    | '`' :: '`' :: '`' :: 'j' :: 's' :: 'o' :: 'n' :: '\n' :: rest => stripFencesAux fuel rest
    | '`' :: '`' :: '`' :: 'j' :: 's' :: 'o' :: 'n' :: rest => stripFencesAux fuel rest
    | '`' :: '`' :: '`' :: rest => stripFencesAux fuel rest
    | c :: rest => c :: stripFencesAux fuel rest
    | [] => []

def stripFences (cs : List Char) : List Char := stripFencesAux (cs.length + 1) cs

/-- `.trim()` on the JS side: drop JS whitespace from both ends. -/
def jsTrim (cs : List Char) : List Char :=
  ((cs.dropWhile isJsWs).reverse.dropWhile isJsWs).reverse

/-- `clean.replace(/(#[0-9A-Fa-f]{6})[0-9A-Fa-f]{2,}/g, '$1')`: after a `#`,
a run of at least 8 hex characters is cut down to its first 6 (the regex
needs 6 captured plus at least 2 more); shorter runs are left alone. -/
def collapseHexRunsAux : Nat → List Char → List Char
  | 0, cs => cs
  | _, [] => []
  | fuel + 1, c :: rest =>
    if c = '#' then
      let run := rest.takeWhile isHexCh
      if 8 ≤ run.length then
        '#' :: (run.take 6 ++ collapseHexRunsAux fuel (rest.drop run.length))
      else
        '#' :: collapseHexRunsAux fuel rest
    else c :: collapseHexRunsAux fuel rest

def collapseHexRuns (cs : List Char) : List Char := collapseHexRunsAux (cs.length + 1) cs

/-- `clean.replace(/,\s*([\]\}])/g, '$1')`: a comma followed by optional
whitespace and a closing bracket/brace is replaced by that bracket/brace. -/
def removeTrailingCommasAux : Nat → List Char → List Char
  | 0, cs => cs
  | _, [] => []
  | fuel + 1, cs =>
    match cs with
    | ',' :: rest =>
      (match rest.dropWhile isJsWs with
       | ']' :: r => ']' :: removeTrailingCommasAux fuel r
       | '}' :: r => '}' :: removeTrailingCommasAux fuel r
       | _ => ',' :: removeTrailingCommasAux fuel rest)
    | c :: rest => c :: removeTrailingCommasAux fuel rest
    | [] => []

def removeTrailingCommas (cs : List Char) : List Char :=
  removeTrailingCommasAux (cs.length + 1) cs

/-- The three unconditional cleanup steps of `parseJSON`, in source order:
fence stripping and trim, hex-run collapsing, trailing-comma removal. -/
def cleanText (text : String) : String :=
  String.mk (removeTrailingCommas (collapseHexRuns (jsTrim (stripFences text.data))))

/-- `/(#?[0-9A-Fa-f]{6})$/.test(clean)`: the last six characters exist and
are all hex digits. -/
def endsWithSixHex (cs : List Char) : Bool :=
  let tail6 := (cs.reverse.take 6)
  6 ≤ cs.length && tail6.all isHexCh

/-- `(clean.match(/X/g) || []).length` for a single-character `X`. -/
def countCh (c : Char) (cs : List Char) : Nat := cs.count c

/-- The salvage pass of `parseJSON`: close a dangling hex-colored string,
then append one `}` per unmatched `{`, then one `]` per unmatched `[`
(in that order, as the source does). -/
def salvageText (clean : List Char) : List Char :=
  let c1 := if endsWithSixHex clean then clean ++ ['"'] else clean
  let c2 :=
    if countCh '}' c1 < countCh '{' c1 then
      c1 ++ List.replicate (countCh '{' c1 - countCh '}' c1) '}'
    else c1
  if countCh ']' c2 < countCh '[' c2 then
    c2 ++ List.replicate (countCh '[' c2 - countCh ']' c2) ']'
  else c2

inductive ParseOutcome where
  | emptyInput              -- "Empty response from AI"
  | malformed               -- "Failed to parse AI response. The model output was malformed."
  | ok (v : JValue)

/-- Model of `parseJSON` (src/services/geminiService.ts:280-302): fail fast
on an empty/missing response, apply the cleanup steps, strict-parse, and on
failure salvage once and re-parse. -/
def parseJSON (text : String) : ParseOutcome :=
  if text = "" then .emptyInput
  else
    let clean := cleanText text
    match jsonParse clean with
    | some v => .ok v
    | none =>
      match jsonParse (String.mk (salvageText clean.data)) with
      | some v => .ok v
      | none => .malformed

/-! ## Generic substring containment (JS `String.prototype.includes`) -/

/-- Index of the first (exact) occurrence of `pat` in `s`, if any. -/
def firstIdxOf (pat : List Char) : List Char → Option Nat
  | [] => if pat = [] then some 0 else none
  | c :: rest =>
    if pat.isPrefixOf (c :: rest) then some 0
    else (firstIdxOf pat rest).map (· + 1)

/-- JS `haystack.includes(needle)`. -/
def includesSub (haystack needle : String) : Bool :=
  (firstIdxOf needle.data haystack.data).isSome

/-! ## The Retry Coordinator (`retry`)

Source: `src/services/geminiService.ts`, lines 304-316.  The asynchronous
unit of work is modelled as a map from the invocation index to that
invocation's outcome; alongside the final outcome the model records the list
of waits the coordinator performed (`setTimeout` delays), in order. -/

/-- The shape of a thrown JS error as inspected by `retry`. -/
structure JsError where
  status : Option Nat := none
  code : Option Nat := none
  message : Option String := none

/-- `error?.status === 429 || error?.code === 429 ||
error?.message?.includes('429') || error?.message?.includes('quota')`. -/
def isRateLimit (e : JsError) : Bool :=
  e.status = some 429 || e.code = some 429 ||
  (match e.message with
   | some m => includesSub m "429" || includesSub m "quota"
   | none => false)

/-- `retry(fn, retries, delay)` unfolded: `i` is the index of the current
invocation; returns the final outcome and the performed waits. -/
def retryGo {T : Type} (fn : Nat → Except JsError T) :
    Nat → Nat → Nat → Except JsError T × List Nat
  | i, 0, _ =>
    match fn i with
    | .ok v => (.ok v, [])
    | .error e => (.error e, [])
  | i, retries + 1, delay =>
    match fn i with
    | .ok v => (.ok v, [])
    | .error e =>
      if isRateLimit e then
        let p := retryGo fn (i + 1) retries (delay * 2)
        (p.1, delay :: p.2)
      else (.error e, [])

/-- `retry(fn)` with the source's defaults (`retries = 3`, `delay = 2000`). -/
def retry {T : Type} (fn : Nat → Except JsError T) : Except JsError T × List Nat :=
  retryGo fn 0 3 2000

/-! ## The idea-analysis flow (`analyzeProjectInput`)

Source: `src/services/geminiService.ts`, lines 330-405 (`validateAnalysis`
and `analyzeProjectInput`), and its caller `handleAnalyze` in
`src/components/AnalysisView.tsx`, lines 18-42.  One loop iteration's whole
remote call + parse is abstracted into an `AttemptOutcome`: either the
`catch`-branch was taken (network/parse failure) or a raw response was
parsed. -/

/-- The raw model response shape (`RawAnalysisResponse`); absent JSON fields
are the empty string / empty list / `none`, matching JS falsiness. -/
structure RawAnalysisResponse where
  category : String := ""
  targetAudience : String := ""
  coreFeatures : List String := []
  primaryKeywords : List String := []
  tone : List String := []
  seoStrategy : String := ""
  marketAnalysis : String := ""
  customerPsychology : String := ""
  isJunk : Option Bool := none

/-- `validateAnalysis` (geminiService.ts:330-336). -/
def validateAnalysis (raw : RawAnalysisResponse) : Bool :=
  match raw.isJunk with
  | none => false
  | some true => true
  | some false =>
    raw.category ≠ "" && raw.targetAudience ≠ "" &&
    raw.coreFeatures.length > 0 && raw.primaryKeywords.length > 0 &&
    raw.seoStrategy ≠ "" && raw.marketAnalysis ≠ "" && raw.customerPsychology ≠ ""

/-- The validated domain type (`AnalysisResult` in src/types.ts). -/
structure AnalysisResult where
  category : String
  targetAudience : String
  coreFeatures : List String
  primaryKeywords : List String
  tone : String
  seoStrategy : String
  marketAnalysis : String
  customerPsychology : String

inductive AttemptOutcome where
  | failed                                 -- the try-block threw (network or parse error)
  | parsed (r : RawAnalysisResponse)       -- parseJSON succeeded with this raw object

inductive AnalysisFailure where
  | unableToObtain                         -- "Unable to obtain analysis data."
  | junkInput                              -- "Junk input detected."
deriving DecidableEq

def analysisFailureMessage : AnalysisFailure → String
  | .unableToObtain => "Unable to obtain analysis data."
  | .junkInput => "Junk input detected."

/-- The `while (attempts < maxAttempts)` loop of `analyzeProjectInput`:
returns the first parsed response that passes `validateAnalysis`, trying at
most `remaining` attempts starting at index `attempt`. -/
def analyzeLoop (resp : Nat → AttemptOutcome) (attempt : Nat) :
    Nat → Option RawAnalysisResponse
  | 0 => none
  | remaining + 1 =>
    match resp attempt with
    | .parsed r => if validateAnalysis r then some r else analyzeLoop resp (attempt + 1) remaining
    | .failed => analyzeLoop resp (attempt + 1) remaining

/-- `input.length > 25000 ? input.substring(0, 25000) + "...[truncated]" : input`. -/
def truncateInput (input : String) : String :=
  if input.length > 25000 then String.mk (input.data.take 25000) ++ "...[truncated]" else input

/-- The field mapping at the end of `analyzeProjectInput` (falsy fallbacks
and the tone-array flattening). -/
def mapRawAnalysis (raw : RawAnalysisResponse) : AnalysisResult where
  category := if raw.category = "" then "Productivity" else raw.category
  targetAudience := if raw.targetAudience = "" then "General Users" else raw.targetAudience
  coreFeatures := raw.coreFeatures
  primaryKeywords := raw.primaryKeywords
  tone := String.intercalate ", " raw.tone
  seoStrategy := raw.seoStrategy
  marketAnalysis := raw.marketAnalysis
  customerPsychology := raw.customerPsychology

/-- `analyzeProjectInput` (geminiService.ts:338-405), with the per-attempt
remote interaction abstracted by `resp`. -/
def analyzeProjectInput (resp : Nat → AttemptOutcome) :
    Except AnalysisFailure AnalysisResult :=
  match analyzeLoop resp 0 3 with
  | none => .error .unableToObtain
  | some raw =>
    if raw.isJunk = some true then .error .junkInput
    else .ok (mapRawAnalysis raw)

/-- The guidance text `handleAnalyze` shows for a junk rejection
(AnalysisView.tsx:35). -/
def junkGuidance : String :=
  "Add a real project please! Our AI needs a clear description of your extension's purpose to perform its magic."

/-- The error rendering in `handleAnalyze` (AnalysisView.tsx:30-38): the junk
rejection gets the guidance text, every other failure the generic prefix. -/
def renderAnalysisError (msg : String) : String :=
  if includesSub msg "Junk input detected" then junkGuidance
  else "Analysis failed: " ++ msg

/-! ## Brand identity finalisation (`generateBrandIdentity`)

Source: `src/services/geminiService.ts`, lines 486-543.  The remote call and
`parseJSON` are abstracted; `finalizeBrandIdentity` is the mapping the
function applies to the parsed `Partial<BrandIdentity>`. -/

structure RawBrandColors where
  primary1 : Option String := none
  primary2 : Option String := none
  accent1 : Option String := none
  accent2 : Option String := none
  neutral_white : Option String := none
  neutral_black : Option String := none
  neutral_gray : Option String := none
  highlight_neon : Option String := none

structure RawBrandTypography where
  headingFont : Option String := none
  bodyFont : Option String := none
  reasoning : Option String := none

structure RawBrand where
  colors : Option RawBrandColors := none
  typography : Option RawBrandTypography := none
  visualStyleDescription : Option String := none

structure BrandColors where
  primary1 : String
  primary2 : String
  accent1 : String
  accent2 : String
  neutral_white : String
  neutral_black : String
  neutral_gray : String
  highlight_neon : String

structure BrandTypography where
  headingFont : String
  bodyFont : String
  reasoning : String

structure BrandIdentity where
  colors : BrandColors
  typography : BrandTypography
  visualStyleDescription : String

/-- JS `x || d` for an optional string: `undefined` and `""` are falsy. -/
def jsOr (v : Option String) (d : String) : String :=
  match v with
  | some s => if s = "" then d else s
  | none => d

/-- The result construction of `generateBrandIdentity`
(geminiService.ts:525-542): every field independently falls back to its
documented default when falsy. -/
def finalizeBrandIdentity (parsed : RawBrand) : BrandIdentity where
  colors :=
    { primary1 := jsOr (parsed.colors.bind (·.primary1)) "#c0f425"
      primary2 := jsOr (parsed.colors.bind (·.primary2)) "#a3d615"
      accent1 := jsOr (parsed.colors.bind (·.accent1)) "#ffffff"
      accent2 := jsOr (parsed.colors.bind (·.accent2)) "#f0f0f0"
      neutral_white := jsOr (parsed.colors.bind (·.neutral_white)) "#ffffff"
      neutral_black := jsOr (parsed.colors.bind (·.neutral_black)) "#161811"
      neutral_gray := jsOr (parsed.colors.bind (·.neutral_gray)) "#888888"
      highlight_neon := jsOr (parsed.colors.bind (·.highlight_neon)) "#00ffcc" }
  typography :=
    { headingFont := jsOr (parsed.typography.bind (·.headingFont)) "Inter"
      bodyFont := jsOr (parsed.typography.bind (·.bodyFont)) "Roboto"
      reasoning := jsOr (parsed.typography.bind (·.reasoning)) "Clean and modern." }
  visualStyleDescription := jsOr parsed.visualStyleDescription "Modern dark mode."

/-- The color-slot enumeration, for stating per-slot properties uniformly. -/
inductive ColorSlot where
  | primary1 | primary2 | accent1 | accent2
  | neutral_white | neutral_black | neutral_gray | highlight_neon
deriving DecidableEq

def rawColorSlot (slot : ColorSlot) (c : RawBrandColors) : Option String :=
  match slot with
  | .primary1 => c.primary1
  | .primary2 => c.primary2
  | .accent1 => c.accent1
  | .accent2 => c.accent2
  | .neutral_white => c.neutral_white
  | .neutral_black => c.neutral_black
  | .neutral_gray => c.neutral_gray
  | .highlight_neon => c.highlight_neon

def outColorSlot (slot : ColorSlot) (c : BrandColors) : String :=
  match slot with
  | .primary1 => c.primary1
  | .primary2 => c.primary2
  | .accent1 => c.accent1
  | .accent2 => c.accent2
  | .neutral_white => c.neutral_white
  | .neutral_black => c.neutral_black
  | .neutral_gray => c.neutral_gray
  | .highlight_neon => c.highlight_neon

/-- The documented per-slot defaults (geminiService.ts:527-534). -/
def defaultColorSlot (slot : ColorSlot) : String :=
  match slot with
  | .primary1 => "#c0f425"
  | .primary2 => "#a3d615"
  | .accent1 => "#ffffff"
  | .accent2 => "#f0f0f0"
  | .neutral_white => "#ffffff"
  | .neutral_black => "#161811"
  | .neutral_gray => "#888888"
  | .highlight_neon => "#00ffcc"

/-- Modelled from the spec's words (the claim's validity predicate): exactly
`#` followed by 6 hex digits. -/
def specHex6 (s : String) : Bool :=
  match s.data with
  | '#' :: rest => rest.length = 6 && rest.all isHexCh
  | _ => false

/-! ## Image generation (`generateImageFromPrompt`)

Source: `src/services/geminiService.ts`, lines 727-757.  The retried model
call is abstracted by the per-invocation outcome map `fn`; a successful
response carries the content parts, each optionally holding inline image
data. -/

structure InlineData where
  mimeType : String
  data : String

structure ContentPart where
  inlineData : Option InlineData := none

/-- The `for (const part of ...parts)` loop: the first inline payload. -/
def firstInlineData : List ContentPart → Option InlineData
  | [] => none
  | p :: rest =>
    match p.inlineData with
    | some d => some d
    | none => firstInlineData rest

/-- `generateImageFromPrompt` (geminiService.ts:727-757): the whole body is
wrapped in a `try` whose `catch` only logs, so every failure of the retried
call falls through to the single terminal `throw new Error("No image
generated")`; a successful response yields the first inline payload as a
data URL, or that same terminal error when no part carries one. -/
def generateImageFromPrompt (fn : Nat → Except JsError (List ContentPart)) :
    Except String String :=
  match (retry fn).1 with
  | .error _ => .error "No image generated"
  | .ok parts =>
    match firstInlineData parts with
    | some d => .ok ("data:" ++ d.mimeType ++ ";base64," ++ d.data)
    | none => .error "No image generated"

/-! ## The Layout/Position Model

Source: `src/types.ts` (`ScreenshotTemplate`, `ImagePosition`,
`ScreenshotData`) and `src/components/Layout.tsx` (`DEFAULT_POSITIONS` at
line 201-207, `getCurrentPosition`/`updateActiveScreenshot`/
`updateCurrentPosition` at lines 824-846, the template picker at line 1440).
`ImagePosition` carries all fourteen fields `DEFAULT_POSITIONS` populates;
numeric fields are modelled as `Int` (no arithmetic is performed on them by
the modelled operations). -/

inductive ScreenshotTemplate where
  | SPLIT | CENTERED | OVERLAY | MINIMAL | DEVICE
deriving DecidableEq

structure ImagePosition where
  scale : Int
  x : Int
  y : Int
  rotate : Int
  imgZoom : Int
  imgX : Int
  imgY : Int
  textX : Int
  textY : Int
  headlineSize : Int
  subheadlineSize : Int
  logoSize : Int
  showLogo : Bool
  showName : Bool
deriving DecidableEq

/-- `DEFAULT_POSITIONS` (Layout.tsx:201-207). -/
def DEFAULT_POSITIONS : ScreenshotTemplate → ImagePosition
  | .DEVICE =>
    { scale := 1, x := 40, y := 0, rotate := 0, imgZoom := 1, imgX := 0, imgY := 0,
      textX := 0, textY := 0, headlineSize := 100, subheadlineSize := 100,
      logoSize := 100, showLogo := true, showName := true }
  | _ =>
    { scale := 1, x := 0, y := 0, rotate := 0, imgZoom := 1, imgX := 0, imgY := 0,
      textX := 0, textY := 0, headlineSize := 100, subheadlineSize := 100,
      logoSize := 100, showLogo := true, showName := true }

/-- A `Partial<ImagePosition>` patch, as `updateCurrentPosition` receives. -/
structure PosPatch where
  scale : Option Int := none
  x : Option Int := none
  y : Option Int := none
  rotate : Option Int := none
  imgZoom : Option Int := none
  imgX : Option Int := none
  imgY : Option Int := none
  textX : Option Int := none
  textY : Option Int := none
  headlineSize : Option Int := none
  subheadlineSize : Option Int := none
  logoSize : Option Int := none
  showLogo : Option Bool := none
  showName : Option Bool := none

/-- The JS spread `{ ...currentPos, ...posUpdates }`. -/
def applyPatch (p : ImagePosition) (u : PosPatch) : ImagePosition where
  scale := u.scale.getD p.scale
  x := u.x.getD p.x
  y := u.y.getD p.y
  rotate := u.rotate.getD p.rotate
  imgZoom := u.imgZoom.getD p.imgZoom
  imgX := u.imgX.getD p.imgX
  imgY := u.imgY.getD p.imgY
  textX := u.textX.getD p.textX
  textY := u.textY.getD p.textY
  headlineSize := u.headlineSize.getD p.headlineSize
  subheadlineSize := u.subheadlineSize.getD p.subheadlineSize
  logoSize := u.logoSize.getD p.logoSize
  showLogo := u.showLogo.getD p.showLogo
  showName := u.showName.getD p.showName

/-- `ScreenshotData` (src/types.ts:83-102); the `positions` record may miss
entries at runtime (the code defends with `|| DEFAULT_POSITIONS[t]`), hence
`Option`-valued. -/
structure ScreenshotData where
  id : String
  previewUrl : String
  renderedUrl : Option String := none
  headline : String
  subheadline : String
  highlightText : String
  isStylized : Bool
  naturalWidth : Int
  naturalHeight : Int
  template : ScreenshotTemplate
  textAlign : Option String := none
  contentMode : Option String := none
  positions : ScreenshotTemplate → Option ImagePosition

/-- The studio tab the asset collection belongs to. -/
inductive ActiveTab where
  | SCREENSHOTS | SMALL_TILE | MARQUEE
deriving DecidableEq

/-- `activeTab === 'SMALL_TILE' ? 'CENTERED' : activeScreenshot.template`
(Layout.tsx:839). -/
def currentTemplate (tab : ActiveTab) (shot : ScreenshotData) : ScreenshotTemplate :=
  if tab = .SMALL_TILE then .CENTERED else shot.template

/-- `updateCurrentPosition` (Layout.tsx:837-846): read the active template's
position (falling back to its default), apply the patch, and write only that
template's key back through the spread
`{ ...activeScreenshot.positions, [currentTemp]: ... }`. -/
def updateCurrentPosition (shot : ScreenshotData) (tab : ActiveTab)
    (patch : PosPatch) : ScreenshotData :=
  let currentTemp := currentTemplate tab shot
  let currentPos := (shot.positions currentTemp).getD (DEFAULT_POSITIONS currentTemp)
  { shot with
    positions := fun t =>
      if t = currentTemp then some (applyPatch currentPos patch) else shot.positions t }

/-- The template picker's `updateActiveScreenshot({ template: t })`
(Layout.tsx:1440): a spread that overwrites only `template`. -/
def setTemplate (shot : ScreenshotData) (t : ScreenshotTemplate) : ScreenshotData :=
  { shot with template := t }

/-! ## Headline highlight segmentation (`renderTextContent`)

Source: `src/components/Layout.tsx`, lines 848-941.  The JSX output is
abstracted to the list of text segments of the headline in order, each
tagged with whether it is rendered as the emphasized span (brand color plus
the brush-stroke underline).  The source interpolates the highlight into
`new RegExp(`(${highlight})`, 'gi')`, so a highlight containing regex
metacharacters is matched as a pattern, and an invalid pattern (such as a
lone `(`) makes the constructor throw; the split below models the regex as
a global, case-insensitive, leftmost literal split (keeping the separators
and the empty pieces JS `split` produces), which is the source's behaviour
exactly for metacharacter-free highlights, and `Char.toLower` models
`toLowerCase`/the `i` flag exactly for ASCII text.  The theorems about this
renderer therefore carry `regexSafe`/`asciiOnly` hypotheses scoping them to
the inputs on which the model is faithful. -/

/-- Characters the ECMAScript pattern grammar treats specially: a highlight
free of these is matched literally by the renderer's `RegExp`. -/
def isRegexMeta (c : Char) : Bool :=
  c = '\\' || c = '^' || c = '$' || c = '.' || c = '*' || c = '+' || c = '?' ||
  c = '(' || c = ')' || c = '[' || c = ']' || c = '{' || c = '}' || c = '|'

/-- The string contains no regex metacharacters (so the renderer's `RegExp`
is valid and matches it literally). -/
def regexSafe (s : String) : Bool := s.data.all (fun c => !(isRegexMeta c))

/-- The string is plain ASCII (where `Char.toLower` agrees with JS
`toLowerCase` and the regex `i` flag). -/
def asciiOnly (s : String) : Bool := s.data.all (fun c => c.toNat < 128)

def toLowerList (cs : List Char) : List Char := cs.map Char.toLower

/-- JS `String.prototype.toLowerCase` (ASCII case folding; see the section
comment). -/
def jsToLower (s : String) : String := String.mk (toLowerList s.data)

/-- Index of the first case-insensitive occurrence: an exact search on the
lowercased text (lowercasing is length-preserving, so the index is valid in
the original). -/
def firstIdxCI (hl text : List Char) : Option Nat :=
  firstIdxOf (toLowerList hl) (toLowerList text)

/-- `text.split(/(hl)/gi)` for a metacharacter-free `hl`: pieces before,
between and after the case-insensitive matches, with the matched slices
(in their original casing) interleaved. -/
def splitPartsAux (hl : List Char) : Nat → List Char → List (List Char)
  | 0, text => [text]
  | fuel + 1, text =>
    match firstIdxCI hl text with
    | none => [text]
    | some i =>
      text.take i :: (text.drop i).take hl.length ::
        splitPartsAux hl fuel ((text.drop i).drop hl.length)

def splitParts (hl text : List Char) : List (List Char) :=
  splitPartsAux hl (text.length + 1) text

/-- Modelled from the spec's words ("every occurrence", regex-global
semantics): the number of leftmost non-overlapping case-insensitive
occurrences of `hl` in the text, fueled like the split. -/
def countOccCI (hl : List Char) : Nat → List Char → Nat
  | 0, _ => 0
  | fuel + 1, text =>
    match firstIdxCI hl text with
    | none => 0
    | some i => 1 + countOccCI hl fuel ((text.drop i).drop hl.length)

/-- The leftmost non-overlapping case-insensitive occurrence count of `hl`
in `text` (the matches a global case-insensitive search separates out). -/
def countOccurrencesCI (hl text : List Char) : Nat :=
  countOccCI hl (text.length + 1) text

/-- JS `String.prototype.trim`. -/
def jsTrimS (s : String) : String := String.mk (jsTrim s.data)

/-- The headline segmentation of `renderTextContent` (Layout.tsx:852-884):
each segment of the headline paired with whether it is emphasized
(`part.toLowerCase() === highlight.toLowerCase()`).  When the trimmed
highlight is empty or not a case-insensitive substring of the headline, the
headline is rendered as a single plain segment. -/
def renderTextContent (headline highlightText : String) : List (String × Bool) :=
  let highlight := jsTrimS highlightText
  if highlight = "" then [(headline, false)]
  else if includesSub (jsToLower headline) (jsToLower highlight) then
    (splitParts highlight.data headline.data).map fun p =>
      (String.mk p, jsToLower (String.mk p) = jsToLower highlight)
  else
    [(headline, false)]

/-! ## Export packaging (`handleDownloadPackage`)

Source: `src/components/FinalizeView.tsx`, lines 34-113.  The archive is
abstracted to the ordered list of entry paths the handler adds; blob
contents are irrelevant to the claim. -/

structure GeneratedAsset where
  id : String
  usage : String              -- 'ICON_MAIN' | 'ICON_RESIZED' | 'MARQUEE' | 'SMALL_TILE' | 'SCREENSHOT'
  url : String
  promptUsed : String
  dimensions : Option String := none
deriving DecidableEq

/-- The slice of `ProjectState` that `handleDownloadPackage` reads. -/
structure ProjectExportState where
  generatedAssets : List GeneratedAsset
  screenshots : List ScreenshotData
  smallTiles : List ScreenshotData
  marquees : List ScreenshotData

/-- The six fixed text entries (FinalizeView.tsx:40-60). -/
def textAssetEntries : List String :=
  [ "text_assets/product_title.txt", "text_assets/short_description.txt",
    "text_assets/long_description.txt", "text_assets/privacy_policy.txt",
    "text_assets/keywords.txt", "text_assets/metadata.json" ]

/-- The icons folder (FinalizeView.tsx:63-74): the first `ICON_MAIN` asset
as `icon_main_1024.png` plus one file per `ICON_RESIZED` asset. -/
def iconEntries (assets : List GeneratedAsset) : List String :=
  (match assets.find? (fun a => a.usage = "ICON_MAIN") with
   | some _ => ["icons/icon_main_1024.png"]
   | none => []) ++
  (assets.filter (fun a => a.usage = "ICON_RESIZED")).map
    (fun a => "icons/icon_" ++ a.dimensions.getD "undefined" ++ ".png")

/-- A `collection.forEach((x, i) => if (x.renderedUrl) add(prefix + (i+1) +
suffix))` loop, indices starting at `n`. -/
def renderedEntriesFrom (pre suf : String) (n : Nat) : List ScreenshotData → List String
  | [] => []
  | s :: rest =>
    (if (s.renderedUrl).isSome then [pre ++ toString (n + 1) ++ suf] else []) ++
      renderedEntriesFrom pre suf (n + 1) rest

def renderedEntries (pre suf : String) (xs : List ScreenshotData) : List String :=
  renderedEntriesFrom pre suf 0 xs

/-- `handleDownloadPackage` with no subset (the full package): the ordered
list of archive entry paths (FinalizeView.tsx:34-101). -/
def handleDownloadPackage (p : ProjectExportState) : List String :=
  textAssetEntries ++
  iconEntries p.generatedAssets ++
  renderedEntries "promo_graphics/marquee_" ".jpg" p.marquees ++
  renderedEntries "promo_graphics/small_promo_" ".jpg" p.smallTiles ++
  renderedEntries "screenshots/screenshot_" ".jpg" p.screenshots

/-! # Theorems -/

/-! ## C1 — normalizer behaviour on already-valid JSON -/

/-- C1 counterexample: the claim "no step of the repair pipeline alters
well-formed input" is false.  `{"a":"#aabbccdd"}` is valid JSON (strict
parsing yields the 8-hex-digit string), yet the normalizer's hex-run
collapsing step rewrites it, so `parseJSON` yields a different value than
direct strict parsing. -/
theorem parseJSON_alters_valid_counterexample :
    jsonParse "\x7b\"a\":\"#aabbccdd\"\x7d" = some (.jobj [("a", .jstr "#aabbccdd")]) ∧
    parseJSON "\x7b\"a\":\"#aabbccdd\"\x7d" = .ok (.jobj [("a", .jstr "#aabbcc")]) ∧
    JValue.jobj [("a", JValue.jstr "#aabbcc")] ≠ JValue.jobj [("a", JValue.jstr "#aabbccdd")] := by
  refine ⟨rfl, rfl, ?_⟩
  intro h
  injection h with h1
  injection h1 with h2 _
  injection h2 with _ h3
  injection h3 with h4
  exact absurd h4 (by decide)

/-- C1 amended: for a valid JSON string that the cleanup pipeline leaves
unchanged (no code-fence markers, no over-long `#`-hex runs, no
comma-before-closing-bracket sequences, no surrounding whitespace), running
the normalizer yields exactly the strict parse result. -/
theorem parseJSON_agrees_on_clean_valid (s : String) (v : JValue)
    (hclean : cleanText s = s) (hparse : jsonParse s = some v) :
    parseJSON s = .ok v := by
  have hs : s ≠ "" := by
    intro h
    subst h
    exact absurd hparse (by intro hc; exact Option.noConfusion hc)
  simp only [parseJSON, if_neg hs, hclean, hparse]

theorem parseJSON_agrees_on_clean_valid_witness :
    cleanText "\x7b\"a\":1\x7d" = "\x7b\"a\":1\x7d" ∧
    jsonParse "\x7b\"a\":1\x7d" = some (.jobj [("a", .jnum "1")]) ∧
    parseJSON "\x7b\"a\":1\x7d" = .ok (.jobj [("a", .jnum "1")]) :=
  ⟨rfl, rfl, parseJSON_agrees_on_clean_valid _ _ rfl rfl⟩

/-! ## C3 — the salvage pass on truncated JSON -/

/-- C3 counterexample: the claim fails for N = 2 already, and in a second
way even for N = 1.  `{"a":[1,2` is `{"a":[1,2]}` truncated at the end,
missing the 2 closers `]}`; the salvage pass appends every missing `}`
before every missing `]` (yielding `{"a":[1,2}]`), so the re-parse fails.
And `{"a":123456` is `{"a":123456}` truncated missing one `}` with no
unmatched brackets, yet the `/(#?[0-9A-Fa-f]{6})$/` test fires on the
trailing digits, appends a stray quote (`{"a":123456"}` after closing), and
the re-parse fails.  In both cases `parseJSON` reports the terminal
malformed error instead of recovering. -/
theorem parseJSON_salvage_counterexample :
    jsonParse "\x7b\"a\":[1,2]\x7d" = some (.jobj [("a", .jarr [.jnum "1", .jnum "2"])]) ∧
    parseJSON "\x7b\"a\":[1,2" = .malformed ∧
    jsonParse "\x7b\"a\":123456\x7d" = some (.jobj [("a", .jnum "123456")]) ∧
    parseJSON "\x7b\"a\":123456" = .malformed := ⟨rfl, rfl, rfl, rfl⟩

/-- When the cleaned text does not end in six hex characters, the salvage
output is exactly the text followed by one `}` per unmatched `{` and then
one `]` per unmatched `[`. -/
theorem salvageText_closers (t : List Char) (a b : Nat)
    (h3 : endsWithSixHex t = false)
    (ha : countCh '}' t + a = countCh '{' t)
    (hb : countCh ']' t + b = countCh '[' t) :
    salvageText t = t ++ List.replicate a '}' ++ List.replicate b ']' := by
  have hc2 : (if countCh '}' t < countCh '{' t then
      t ++ List.replicate (countCh '{' t - countCh '}' t) '}' else t) =
      t ++ List.replicate a '}' := by
    rcases Nat.eq_zero_or_pos a with haz | hap
    · subst haz
      rw [if_neg (by omega)]
      simp
    · rw [if_pos (by omega), show countCh '{' t - countCh '}' t = a by omega]
  have hbr : countCh ']' (t ++ List.replicate a '}') = countCh ']' t := by
    simp [countCh, List.count_append, List.count_replicate]
  have hbl : countCh '[' (t ++ List.replicate a '}') = countCh '[' t := by
    simp [countCh, List.count_append, List.count_replicate]
  simp only [salvageText, h3, Bool.false_eq_true, if_false, hc2, hbr, hbl]
  rcases Nat.eq_zero_or_pos b with hbz | hbp
  · subst hbz
    rw [if_neg (by omega)]
    simp
  · rw [if_pos (by omega), show countCh '[' t - countCh ']' t = b by omega,
      List.append_assoc]

/-- C3 amended: the salvage pass recovers truncated JSON whose strict
completion appends all missing `}`s and then all missing `]`s — universally:
whenever the cleaned text is a cleanup fixpoint, fails strict parsing, does
not end in six hex-like characters (so the quote-append stays off), has `a`
unmatched `{`s and `b` unmatched `[`s, and the text followed by `a` `}`s and
then `b` `]`s strict-parses to `v`, then `parseJSON` recovers exactly `v`.
In particular this covers any N = a + b in {1, 2, 3} with every unmatched
`{` inside every unmatched `[`; representative instances for N = 1, 2, 3
(including the hex-color quote repair, where the quote-append is the
intended fix) are recorded alongside.  Recovery fails when an unmatched `[`
is nested inside an unmatched `{`, or when the truncated text ends in six
hex-like characters such as a numeric literal's digits. -/
theorem parseJSON_salvage_recovers :
    (∀ (t : String) (v : JValue) (a b : Nat),
      cleanText t = t →
      jsonParse t = none →
      endsWithSixHex t.data = false →
      countCh '}' t.data + a = countCh '{' t.data →
      countCh ']' t.data + b = countCh '[' t.data →
      jsonParse (String.mk (t.data ++ List.replicate a '}' ++ List.replicate b ']')) =
        some v →
      parseJSON t = .ok v) ∧
    parseJSON "\x7b\"a\":1" = .ok (.jobj [("a", .jnum "1")]) ∧
    parseJSON "\x7b\"a\":\x7b\"b\":2" = .ok (.jobj [("a", .jobj [("b", .jnum "2")])]) ∧
    parseJSON "[[[\"x\"" = .ok (.jarr [.jarr [.jarr [.jstr "x"]]]) ∧
    parseJSON "[\x7b\"a\":1" = .ok (.jarr [.jobj [("a", .jnum "1")]]) ∧
    parseJSON "\x7b\"c\":\"#aabbcc" = .ok (.jobj [("c", .jstr "#aabbcc")]) := by
  refine ⟨?_, rfl, rfl, rfl, rfl, rfl⟩
  intro t v a b h1 h2 h3 ha hb h6
  by_cases ht : t = ""
  · subst ht
    have ha0 : a = 0 := by
      rw [show countCh '}' ("" : String).data = 0 from rfl,
        show countCh '{' ("" : String).data = 0 from rfl] at ha
      omega
    have hb0 : b = 0 := by
      rw [show countCh ']' ("" : String).data = 0 from rfl,
        show countCh '[' ("" : String).data = 0 from rfl] at hb
      omega
    subst ha0
    subst hb0
    rw [show String.mk (("" : String).data ++ List.replicate 0 '}' ++ List.replicate 0 ']') =
      "" from rfl, h2] at h6
    exact Option.noConfusion h6
  · simp only [parseJSON, if_neg ht, h1, h2]
    rw [salvageText_closers t.data a b h3 ha hb, h6]

theorem parseJSON_salvage_recovers_witness :
    parseJSON "\x7b\"a\":\x7b\"b\":2" = .ok (.jobj [("a", .jobj [("b", .jnum "2")])]) :=
  parseJSON_salvage_recovers.1 "\x7b\"a\":\x7b\"b\":2"
    (.jobj [("a", .jobj [("b", .jnum "2")])]) 2 0
    rfl rfl rfl (by decide) (by decide) rfl

/-! ## C4 — hex-run collapsing -/

/-- A hex digit is never `#`. -/
theorem isHexCh_ne_hash {c : Char} (h : isHexCh c = true) : c ≠ '#' := by
  intro h'
  subst h'
  exact absurd h (by decide)

/-- `collapseHexRunsAux` is the identity on inputs without `#`. -/
theorem collapseHexRunsAux_no_hash :
    ∀ (fuel : Nat) (cs : List Char), (∀ c ∈ cs, c ≠ '#') →
      collapseHexRunsAux fuel cs = cs := by
  intro fuel
  induction fuel with
  | zero => intro cs _; cases cs <;> rfl
  | succ n ih =>
    intro cs h
    cases cs with
    | nil => rfl
    | cons c rest =>
      have hc : c ≠ '#' := h c (List.mem_cons_self c rest)
      simp only [collapseHexRunsAux, if_neg hc]
      exact congrArg (c :: ·) (ih rest fun x hx => h x (List.mem_cons_of_mem c hx))

/-- C4 counterexample: the claim "a `#RRGGBB` token followed by a run of
more than 6 trailing hex characters is collapsed to exactly 6 digits" is
false at the boundary: with 7 hex characters after `#` (one extra digit)
the regex needs at least two surplus characters and leaves the token
untouched. -/
theorem parseJSON_hex7_counterexample :
    parseJSON "\x7b\"c\":\"#FF57333\"\x7d" = .ok (.jobj [("c", .jstr "#FF57333")]) ∧
    ("#FF57333" : String) ≠ "#FF5733" := ⟨rfl, by decide⟩

/-- C4 amended: a `#` followed by at least 8 hex characters (6 for the token
plus a surplus run of at least 2) is collapsed to exactly 6 hex digits after
`#`; with 7 or fewer hex characters the text is unchanged; in particular
`#FF5733333333` yields exactly `#FF5733`, also through the whole normalizer. -/
theorem collapseHexRuns_spec :
    (∀ r : List Char, (∀ c ∈ r, isHexCh c = true) → 8 ≤ r.length →
      collapseHexRuns ('#' :: r) = '#' :: r.take 6) ∧
    (∀ r : List Char, (∀ c ∈ r, isHexCh c = true) → r.length ≤ 7 →
      collapseHexRuns ('#' :: r) = '#' :: r) ∧
    cleanText "\x7b\"color\":\"#FF5733333333\"\x7d" = "\x7b\"color\":\"#FF5733\"\x7d" ∧
    parseJSON "\x7b\"color\":\"#FF5733333333\"\x7d" = .ok (.jobj [("color", .jstr "#FF5733")]) := by
  refine ⟨?_, ?_, rfl, rfl⟩
  · intro r hall h8
    have htw : r.takeWhile isHexCh = r := List.takeWhile_eq_self_iff.mpr hall
    simp only [collapseHexRuns, List.length_cons, collapseHexRunsAux, htw, if_pos rfl,
      if_pos h8, List.drop_length]
    cases r with
    | nil => simp at h8
    | cons a l => simp
  · intro r hall h7
    have htw : r.takeWhile isHexCh = r := List.takeWhile_eq_self_iff.mpr hall
    have h8 : ¬ (8 ≤ r.length) := by omega
    simp only [collapseHexRuns, List.length_cons, collapseHexRunsAux, htw, if_pos rfl,
      if_neg h8]
    exact congrArg ('#' :: ·)
      (collapseHexRunsAux_no_hash _ r fun c hc => isHexCh_ne_hash (hall c hc))

theorem collapseHexRuns_spec_witness :
    collapseHexRuns ('#' :: "FF5733333333".data) = '#' :: "FF5733333333".data.take 6 ∧
    collapseHexRuns ('#' :: "FF5733".data) = '#' :: "FF5733".data :=
  ⟨collapseHexRuns_spec.1 _ (by decide) (by decide),
   collapseHexRuns_spec.2.1 _ (by decide) (by decide)⟩

/-! ## C2 — the Retry Coordinator -/

/-- C2: a successful result is returned unaltered with no waits; a
non-rate-limit failure propagates immediately without retry; two rate-limit
failures followed by a success return that success after waits of 2000ms
then 4000ms (the base delay doubling); four consecutive rate-limit failures
exhaust the budget of 3 retries after the first attempt and propagate the
last error, after waits 2000, 4000, 8000. -/
theorem retry_contract :
    (∀ {T : Type} (fn : Nat → Except JsError T) (v : T),
      fn 0 = .ok v → retry fn = (.ok v, [])) ∧
    (∀ {T : Type} (fn : Nat → Except JsError T) (e : JsError),
      fn 0 = .error e → isRateLimit e = false → retry fn = (.error e, [])) ∧
    (∀ {T : Type} (fn : Nat → Except JsError T) (e₀ e₁ : JsError) (v : T),
      fn 0 = .error e₀ → isRateLimit e₀ = true →
      fn 1 = .error e₁ → isRateLimit e₁ = true →
      fn 2 = .ok v →
      retry fn = (.ok v, [2000, 4000])) ∧
    (∀ {T : Type} (fn : Nat → Except JsError T) (e₀ e₁ e₂ e₃ : JsError),
      fn 0 = .error e₀ → isRateLimit e₀ = true →
      fn 1 = .error e₁ → isRateLimit e₁ = true →
      fn 2 = .error e₂ → isRateLimit e₂ = true →
      fn 3 = .error e₃ → isRateLimit e₃ = true →
      retry fn = (.error e₃, [2000, 4000, 8000])) ∧
    (∀ {T : Type} (fn : Nat → Except JsError T) (i retries delay : Nat) (v : T),
      fn i = .ok v → retryGo fn i retries delay = (.ok v, [])) ∧
    (∀ {T : Type} (fn : Nat → Except JsError T) (i retries delay : Nat) (e : JsError),
      fn i = .error e → isRateLimit e = false →
      retryGo fn i retries delay = (.error e, [])) := by
  refine ⟨?_, ?_, ?_, ?_, ?_, ?_⟩
  · intro T fn v h
    simp [retry, retryGo, h]
  · intro T fn e h hrl
    simp [retry, retryGo, h, hrl]
  · intro T fn e₀ e₁ v h0 h0rl h1 h1rl h2
    simp [retry, retryGo, h0, h0rl, h1, h1rl, h2]
  · intro T fn e₀ e₁ e₂ e₃ h0 h0rl h1 h1rl h2 h2rl h3 h3rl
    simp [retry, retryGo, h0, h0rl, h1, h1rl, h2, h2rl, h3, h3rl]
  · intro T fn i retries delay v h
    cases retries <;> simp [retryGo, h]
  · intro T fn i retries delay e h hrl
    cases retries <;> simp [retryGo, h, hrl]

theorem retry_contract_witness :
    retry (fun _ => (.ok 1 : Except JsError Nat)) = (.ok 1, []) ∧
    retry (fun _ => (.error { message := some "boom" } : Except JsError Nat)) =
      (.error { message := some "boom" }, []) ∧
    retry (fun i => if i < 2 then (.error { status := some 429 } : Except JsError Nat)
                    else .ok 7) = (.ok 7, [2000, 4000]) ∧
    retry (fun _ => (.error { message := some "quota exceeded" } : Except JsError Nat)) =
      (.error { message := some "quota exceeded" }, [2000, 4000, 8000]) ∧
    retryGo (fun _ => (.ok 5 : Except JsError Nat)) 2 1 8000 = (.ok 5, []) ∧
    retryGo (fun _ => (.error { status := some 500 } : Except JsError Nat)) 1 2 4000 =
      (.error { status := some 500 }, []) :=
  ⟨retry_contract.1 _ _ rfl,
   retry_contract.2.1 _ _ rfl (by decide),
   retry_contract.2.2.1 _ _ _ _ rfl (by decide) rfl (by decide) rfl,
   retry_contract.2.2.2.1 _ _ _ _ _ rfl (by decide) rfl (by decide) rfl (by decide) rfl (by decide),
   retry_contract.2.2.2.2.1 _ 2 1 8000 _ rfl,
   retry_contract.2.2.2.2.2 _ 1 2 4000 _ rfl (by decide)⟩

/-! ## C5 — junk-input rejection in the analysis flow -/

/-- C5: whenever the model's analysis comes back with `isJunk = true`, the
flow throws the distinct "Junk input detected." domain rejection and never
returns a populated `AnalysisResult`; the caller renders exactly that
condition as the fixed guidance text, while every other failure message is
rendered with the distinguishable "Analysis failed: " prefix (so no other
message renders as the guidance). -/
theorem analyzeProjectInput_junk_rejection :
    (∀ (resp : Nat → AttemptOutcome) (r : RawAnalysisResponse),
      resp 0 = .parsed r → r.isJunk = some true →
      analyzeProjectInput resp = .error .junkInput) ∧
    (∀ (resp : Nat → AttemptOutcome) (r : RawAnalysisResponse) (a : AnalysisResult),
      resp 0 = .parsed r → r.isJunk = some true →
      analyzeProjectInput resp ≠ .ok a) ∧
    renderAnalysisError (analysisFailureMessage .junkInput) = junkGuidance ∧
    (∀ msg, includesSub msg "Junk input detected" = false →
      renderAnalysisError msg = "Analysis failed: " ++ msg ∧
      renderAnalysisError msg ≠ junkGuidance) := by
  have hloop : ∀ (resp : Nat → AttemptOutcome) (r : RawAnalysisResponse),
      resp 0 = .parsed r → r.isJunk = some true →
      analyzeProjectInput resp = .error .junkInput := by
    intro resp r h hj
    have hv : validateAnalysis r = true := by simp [validateAnalysis, hj]
    simp [analyzeProjectInput, analyzeLoop, h, hv, hj]
  refine ⟨hloop, ?_, by decide, ?_⟩
  · intro resp r a h hj hok
    rw [hloop resp r h hj] at hok
    exact Except.noConfusion hok
  · intro msg hm
    refine ⟨by simp [renderAnalysisError, hm], ?_⟩
    rw [show renderAnalysisError msg = "Analysis failed: " ++ msg by
      simp [renderAnalysisError, hm]]
    intro h
    have hdata := congrArg (fun s => s.data[1]?) h
    simp only [String.data_append] at hdata
    rw [List.getElem?_append_left (by decide)] at hdata
    exact absurd hdata (by decide)

theorem analyzeProjectInput_junk_rejection_witness :
    analyzeProjectInput (fun _ => .parsed { isJunk := some true }) = .error .junkInput ∧
    analyzeProjectInput (fun _ => .parsed { isJunk := some true }) ≠
      .ok (mapRawAnalysis { isJunk := some true }) ∧
    (renderAnalysisError "boom" = "Analysis failed: " ++ "boom" ∧
      renderAnalysisError "boom" ≠ junkGuidance) :=
  ⟨analyzeProjectInput_junk_rejection.1 _ _ rfl rfl,
   analyzeProjectInput_junk_rejection.2.1 _ _ _ rfl rfl,
   analyzeProjectInput_junk_rejection.2.2.2 "boom" (by decide)⟩

/-! ## C6 — brand-color validation -/

/-- C6 counterexample: the claim "any value that is not exactly `#` followed
by 6 hex digits is rejected and replaced by the documented default" is
false: a 3-digit color `#fff` is truthy, passes through `generateBrandIdentity`'s
falsy-fallback unchanged, is not strict 6-digit hex, and is not the slot's
documented default. -/
theorem brandIdentity_threeDigit_counterexample :
    (finalizeBrandIdentity
      { colors := some { primary1 := some "#fff" } }).colors.primary1 = "#fff" ∧
    specHex6 "#fff" = false ∧
    ("#fff" : String) ≠ defaultColorSlot .primary1 := ⟨rfl, rfl, by decide⟩

/-- C6 amended: each brand-color slot independently falls back to its
documented default exactly when the parsed value is missing or empty
(JS-falsy); any other string — valid or not — is passed through unvalidated.
Separately, the normalizer's hex-run collapsing truncates an 8-digit (alpha)
value such as `#00000000` to 6 digits before the identity is built. -/
theorem finalizeBrandIdentity_fallback :
    (∀ (slot : ColorSlot) (parsed : RawBrand),
      parsed.colors.bind (fun c => rawColorSlot slot c) = none ∨
        parsed.colors.bind (fun c => rawColorSlot slot c) = some "" →
      outColorSlot slot (finalizeBrandIdentity parsed).colors = defaultColorSlot slot) ∧
    (∀ (slot : ColorSlot) (parsed : RawBrand) (s : String),
      parsed.colors.bind (fun c => rawColorSlot slot c) = some s → s ≠ "" →
      outColorSlot slot (finalizeBrandIdentity parsed).colors = s) ∧
    parseJSON "\x7b\"colors\":\x7b\"primary1\":\"#00000000\"\x7d\x7d" =
      .ok (.jobj [("colors", .jobj [("primary1", .jstr "#000000")])]) := by
  refine ⟨?_, ?_, rfl⟩
  · intro slot parsed h
    cases slot <;> simp only [rawColorSlot] at h <;>
      rcases h with h | h <;>
      simp [finalizeBrandIdentity, outColorSlot, defaultColorSlot, jsOr, h]
  · intro slot parsed s h hs
    cases slot <;> simp only [rawColorSlot] at h <;>
      simp [finalizeBrandIdentity, outColorSlot, jsOr, h, hs]

theorem finalizeBrandIdentity_fallback_witness :
    outColorSlot .primary1 (finalizeBrandIdentity
      { colors := some { primary1 := none } }).colors = defaultColorSlot .primary1 ∧
    outColorSlot .highlight_neon (finalizeBrandIdentity
      { colors := some { highlight_neon := some "#123abc" } }).colors = "#123abc" :=
  ⟨finalizeBrandIdentity_fallback.1 .primary1 _ (Or.inl rfl),
   finalizeBrandIdentity_fallback.2.1 .highlight_neon _ _ rfl (by decide)⟩

/-! ## C10 — the "no image produced" condition -/

/-- C10 counterexample: the claim "other failures surface as their own
errors rather than as the no-image condition" is false: a plain network
failure of the model call (not a missing image payload) is swallowed by the
surrounding `try`/`catch` and surfaces as the same "No image generated"
error. -/
theorem generateImageFromPrompt_swallow_counterexample :
    generateImageFromPrompt
      (fun _ => .error { message := some "network down" }) =
      .error "No image generated" := rfl

/-- C10 amended: `generateImageFromPrompt` fails with the "No image
generated" error if and only if either the response carries no inline image
payload or the (retried) model call itself failed — every failure is folded
into that one error; when an inline payload is present, its data URL is
returned. -/
theorem generateImageFromPrompt_spec :
    (∀ (fn : Nat → Except JsError (List ContentPart)) (parts : List ContentPart)
        (d : InlineData),
      (retry fn).1 = .ok parts → firstInlineData parts = some d →
      generateImageFromPrompt fn = .ok ("data:" ++ d.mimeType ++ ";base64," ++ d.data)) ∧
    (∀ (fn : Nat → Except JsError (List ContentPart)) (parts : List ContentPart),
      (retry fn).1 = .ok parts → firstInlineData parts = none →
      generateImageFromPrompt fn = .error "No image generated") ∧
    (∀ (fn : Nat → Except JsError (List ContentPart)) (e : JsError),
      (retry fn).1 = .error e →
      generateImageFromPrompt fn = .error "No image generated") := by
  refine ⟨?_, ?_, ?_⟩
  · intro fn parts d h hd
    simp [generateImageFromPrompt, h, hd]
  · intro fn parts h hd
    simp [generateImageFromPrompt, h, hd]
  · intro fn e h
    simp [generateImageFromPrompt, h]

theorem generateImageFromPrompt_spec_witness :
    generateImageFromPrompt
      (fun _ => .ok [{ inlineData := some { mimeType := "image/png", data := "AAAA" } }]) =
      .ok ("data:" ++ "image/png" ++ ";base64," ++ "AAAA") ∧
    generateImageFromPrompt (fun _ => .ok [{ inlineData := none }]) =
      .error "No image generated" ∧
    generateImageFromPrompt (fun _ => .error { status := some 500 }) =
      .error "No image generated" :=
  ⟨generateImageFromPrompt_spec.1
      (fun _ => .ok [{ inlineData := some { mimeType := "image/png", data := "AAAA" } }])
      [{ inlineData := some { mimeType := "image/png", data := "AAAA" } }]
      { mimeType := "image/png", data := "AAAA" } rfl rfl,
   generateImageFromPrompt_spec.2.1
      (fun _ => .ok [{ inlineData := none }]) [{ inlineData := none }] rfl rfl,
   generateImageFromPrompt_spec.2.2
      (fun _ => .error { status := some 500 }) { status := some 500 } rfl⟩

/-! ## C8 — per-template position isolation -/

/-- C8: patching any subset of `ImagePosition` fields for an asset's active
template rewrites only the active template's record: every other template's
position (hence every one of its fields) is returned unchanged, and the
active template's record is exactly the old record (or its default, when
absent) with the patch applied over it; switching the asset's template
through the template picker leaves the whole `positions` record untouched. -/
theorem updateCurrentPosition_isolation :
    (∀ (shot : ScreenshotData) (tab : ActiveTab) (patch : PosPatch)
        (t : ScreenshotTemplate),
      t ≠ currentTemplate tab shot →
      (updateCurrentPosition shot tab patch).positions t = shot.positions t) ∧
    (∀ (shot : ScreenshotData) (tab : ActiveTab) (patch : PosPatch),
      (updateCurrentPosition shot tab patch).positions (currentTemplate tab shot) =
        some (applyPatch
          ((shot.positions (currentTemplate tab shot)).getD
            (DEFAULT_POSITIONS (currentTemplate tab shot))) patch)) ∧
    (∀ (shot : ScreenshotData) (t : ScreenshotTemplate),
      (setTemplate shot t).positions = shot.positions) := by
  refine ⟨?_, ?_, ?_⟩
  · intro shot tab patch t ht
    simp [updateCurrentPosition, ht]
  · intro shot tab patch
    simp [updateCurrentPosition]
  · intro shot t
    rfl

/-- A concrete asset for the witness: a DEVICE-template screenshot whose
positions record holds an adjusted SPLIT entry. -/
def witnessShot : ScreenshotData where
  id := "shot1"
  previewUrl := "blob:1"
  headline := "Fast and simple"
  subheadline := "Really"
  highlightText := "simple"
  isStylized := false
  naturalWidth := 1280
  naturalHeight := 800
  template := .DEVICE
  positions := fun t =>
    if t = .SPLIT then some { DEFAULT_POSITIONS .SPLIT with x := 17 } else none

theorem updateCurrentPosition_isolation_witness :
    (updateCurrentPosition witnessShot .SCREENSHOTS { x := some 99 }).positions .SPLIT =
      witnessShot.positions .SPLIT ∧
    (updateCurrentPosition witnessShot .SCREENSHOTS { x := some 99 }).positions
        (currentTemplate .SCREENSHOTS witnessShot) =
      some (applyPatch
        ((witnessShot.positions (currentTemplate .SCREENSHOTS witnessShot)).getD
          (DEFAULT_POSITIONS (currentTemplate .SCREENSHOTS witnessShot)))
        { x := some 99 }) ∧
    (setTemplate witnessShot .OVERLAY).positions = witnessShot.positions :=
  ⟨updateCurrentPosition_isolation.1 witnessShot .SCREENSHOTS { x := some 99 } .SPLIT
      (by decide),
   updateCurrentPosition_isolation.2.1 witnessShot .SCREENSHOTS { x := some 99 },
   updateCurrentPosition_isolation.2.2 witnessShot .OVERLAY⟩

/-! ## C9 — export completeness -/

/-- One promotional entry exists per rendered asset: the generated entry
list of a collection, starting at any index, has exactly one entry per
element with a rendered output. -/
theorem renderedEntriesFrom_length (pre suf : String) :
    ∀ (xs : List ScreenshotData) (n : Nat),
      (renderedEntriesFrom pre suf n xs).length =
        xs.countP (fun s => (s.renderedUrl).isSome) := by
  intro xs
  induction xs with
  | nil => intro n; rfl
  | cons s rest ih =>
    intro n
    by_cases h : (s.renderedUrl).isSome <;>
      simp [renderedEntriesFrom, List.countP_cons, h, ih (n + 1)]

/-- Membership in the promotional entry list characterised: an entry arises
exactly from an asset at some index whose `renderedUrl` is present. -/
theorem renderedEntriesFrom_mem (pre suf : String) :
    ∀ (xs : List ScreenshotData) (n : Nat) (e : String),
      e ∈ renderedEntriesFrom pre suf n xs ↔
        ∃ i s, xs.get? i = some s ∧ (s.renderedUrl).isSome = true ∧
          e = pre ++ toString (n + i + 1) ++ suf := by
  intro xs
  induction xs with
  | nil => simp [renderedEntriesFrom]
  | cons s rest ih =>
    intro n e
    simp only [renderedEntriesFrom]
    by_cases h : (s.renderedUrl).isSome = true
    · rw [if_pos h]
      simp only [List.singleton_append, List.mem_cons, ih (n + 1)]
      constructor
      · rintro (rfl | ⟨i, t, hget, hrend, rfl⟩)
        · exact ⟨0, s, rfl, h, rfl⟩
        · refine ⟨i + 1, t, by simpa using hget, hrend, ?_⟩
          have harith : n + (i + 1) + 1 = n + 1 + i + 1 := by omega
          rw [harith]
      · rintro ⟨i, t, hget, hrend, rfl⟩
        cases i with
        | zero =>
          left
          simp only [List.get?_cons_zero, Option.some.injEq] at hget
          subst hget
          rfl
        | succ j =>
          right
          refine ⟨j, t, by simpa using hget, hrend, ?_⟩
          have harith : n + 1 + j + 1 = n + (j + 1) + 1 := by omega
          rw [harith]
    · rw [if_neg h]
      simp only [List.nil_append, ih (n + 1)]
      constructor
      · rintro ⟨i, t, hget, hrend, rfl⟩
        refine ⟨i + 1, t, by simpa using hget, hrend, ?_⟩
        have harith : n + (i + 1) + 1 = n + 1 + i + 1 := by omega
        rw [harith]
      · rintro ⟨i, t, hget, hrend, rfl⟩
        cases i with
        | zero =>
          simp only [List.get?_cons_zero, Option.some.injEq] at hget
          subst hget
          exact absurd hrend h
        | succ j =>
          refine ⟨j, t, by simpa using hget, hrend, ?_⟩
          have harith : n + 1 + j + 1 = n + (j + 1) + 1 := by omega
          rw [harith]

/-- A shot with a rendered output, for concrete export scenarios. -/
def renderedShot (n : Nat) : ScreenshotData :=
  { witnessShot with id := "r" ++ toString n, renderedUrl := some ("data:render" ++ toString n) }

/-- A shot without a rendered output. -/
def draftShot (n : Nat) : ScreenshotData :=
  { witnessShot with id := "d" ++ toString n, renderedUrl := none }

/-- The concrete project of the claim: 2 rendered screenshots (plus an
unrendered draft), 1 rendered small tile, 0 rendered marquees (one
unrendered draft), a main icon and two resized icon variants. -/
def exportScenario : ProjectExportState where
  generatedAssets :=
    [ { id := "i1", usage := "ICON_MAIN", url := "data:icon", promptUsed := "p" },
      { id := "i2", usage := "ICON_RESIZED", url := "data:icon128", promptUsed := "p",
        dimensions := some "128x128" },
      { id := "i3", usage := "ICON_RESIZED", url := "data:icon48", promptUsed := "p",
        dimensions := some "48x48" } ]
  screenshots := [renderedShot 1, draftShot 2, renderedShot 3]
  smallTiles := [renderedShot 4]
  marquees := [draftShot 5]

/-- C9: a promotional-graphics entry is included if and only if the asset at
that position has a rendered output (one entry per rendered asset, none for
drafts) — stated for the generic collection walk used for screenshots,
small tiles and marquees alike — and on the claim's concrete scenario
(2 rendered screenshots plus one draft, 1 rendered small tile, 1 unrendered
marquee, a main icon with 2 resized variants) the archive holds exactly the
6 text assets, the main icon file, its 2 resized variants, 0 marquee files,
1 small-tile file and 2 screenshot files. -/
theorem export_completeness :
    (∀ (pre suf : String) (xs : List ScreenshotData) (e : String),
      e ∈ renderedEntries pre suf xs ↔
        ∃ i s, xs.get? i = some s ∧ (s.renderedUrl).isSome = true ∧
          e = pre ++ toString (i + 1) ++ suf) ∧
    (∀ (pre suf : String) (xs : List ScreenshotData),
      (renderedEntries pre suf xs).length =
        xs.countP (fun s => (s.renderedUrl).isSome)) ∧
    handleDownloadPackage exportScenario =
      [ "text_assets/product_title.txt", "text_assets/short_description.txt",
        "text_assets/long_description.txt", "text_assets/privacy_policy.txt",
        "text_assets/keywords.txt", "text_assets/metadata.json",
        "icons/icon_main_1024.png", "icons/icon_128x128.png", "icons/icon_48x48.png",
        "promo_graphics/small_promo_1.jpg",
        "screenshots/screenshot_1.jpg", "screenshots/screenshot_3.jpg" ] := by
  refine ⟨?_, ?_, by decide⟩
  · intro pre suf xs e
    have := renderedEntriesFrom_mem pre suf xs 0 e
    simpa [renderedEntries] using this
  · intro pre suf xs
    exact renderedEntriesFrom_length pre suf xs 0

/-! ## C7 — headline highlight segmentation -/

/-- A found occurrence fits inside the text. -/
theorem firstIdxOf_bound (pat : List Char) :
    ∀ (s : List Char) (i : Nat), firstIdxOf pat s = some i →
      i + pat.length ≤ s.length := by
  intro s
  induction s with
  | nil =>
    intro i h
    simp only [firstIdxOf] at h
    by_cases hp : pat = []
    · simp [hp] at h ⊢
      omega
    · simp [hp] at h
  | cons c rest ih =>
    intro i h
    simp only [firstIdxOf] at h
    by_cases hp : pat.isPrefixOf (c :: rest)
    · rw [if_pos hp] at h
      cases h
      simpa using (List.isPrefixOf_iff_prefix.mp hp).length_le
    · rw [if_neg hp] at h
      rcases Option.map_eq_some'.mp h with ⟨j, hj, rfl⟩
      have := ih j hj
      simp only [List.length_cons]
      omega

/-- The slice at a found occurrence is the pattern. -/
theorem firstIdxOf_match (pat : List Char) :
    ∀ (s : List Char) (i : Nat), firstIdxOf pat s = some i →
      (s.drop i).take pat.length = pat := by
  intro s
  induction s with
  | nil =>
    intro i h
    simp only [firstIdxOf] at h
    by_cases hp : pat = []
    · simp [hp] at h ⊢
    · simp [hp] at h
  | cons c rest ih =>
    intro i h
    simp only [firstIdxOf] at h
    by_cases hp : pat.isPrefixOf (c :: rest)
    · rw [if_pos hp] at h
      cases h
      exact (List.prefix_iff_eq_take.mp (List.isPrefixOf_iff_prefix.mp hp)).symm
    · rw [if_neg hp] at h
      rcases Option.map_eq_some'.mp h with ⟨j, hj, rfl⟩
      simpa using ih j hj

/-- The split's pieces concatenate back to the text. -/
theorem splitPartsAux_flatten {hl : List Char} (hhl : hl ≠ []) :
    ∀ (fuel : Nat) (text : List Char), text.length ≤ fuel →
      (splitPartsAux hl fuel text).flatten = text := by
  intro fuel
  induction fuel with
  | zero =>
    intro text _
    simp [splitPartsAux]
  | succ n ih =>
    intro text hlen
    simp only [splitPartsAux]
    cases hidx : firstIdxCI hl text with
    | none => simp
    | some i =>
      have hbound : i + hl.length ≤ text.length := by
        have := firstIdxOf_bound (toLowerList hl) (toLowerList text) i hidx
        simpa [toLowerList] using this
      have hpos : 1 ≤ hl.length := by
        cases hl with
        | nil => exact absurd rfl hhl
        | cons a l => simp
      have hrec : ((text.drop i).drop hl.length).length ≤ n := by
        simp only [List.length_drop]
        omega
      simp only [List.flatten_cons, ih _ hrec]
      rw [List.take_append_drop, List.take_append_drop]

/-- No occurrence at all means the pattern is not a prefix. -/
theorem firstIdxOf_none_excludes (pat : List Char) :
    ∀ s : List Char, firstIdxOf pat s = none → pat.isPrefixOf s = false := by
  intro s h
  cases s with
  | nil =>
    simp only [firstIdxOf] at h
    by_cases hp : pat = []
    · rw [if_pos hp] at h
      exact Option.noConfusion h
    · cases pat with
      | nil => exact absurd rfl hp
      | cons c cs => rfl
  | cons c rest =>
    simp only [firstIdxOf] at h
    cases hpv : pat.isPrefixOf (c :: rest) with
    | true =>
      rw [if_pos hpv] at h
      exact Option.noConfusion h
    | false => rfl

/-- A first occurrence at a positive index means the pattern is not a
prefix. -/
theorem firstIdxOf_pos_excludes (pat : List Char) :
    ∀ (s : List Char) (i : Nat), firstIdxOf pat s = some i → 0 < i →
      pat.isPrefixOf s = false := by
  intro s i h hi
  cases s with
  | nil =>
    simp only [firstIdxOf] at h
    by_cases hp : pat = []
    · rw [if_pos hp] at h
      injection h with h0
      omega
    · rw [if_neg hp] at h
      exact Option.noConfusion h
  | cons c rest =>
    simp only [firstIdxOf] at h
    cases hpv : pat.isPrefixOf (c :: rest) with
    | true =>
      rw [if_pos hpv] at h
      injection h with h0
      omega
    | false => rfl

/-- The emphasized segments of the split are exactly the matched slices:
their number equals the number of leftmost non-overlapping case-insensitive
occurrences. -/
theorem splitPartsAux_countP (hl : List Char) (hhl : hl ≠ []) :
    ∀ (fuel : Nat) (text : List Char), text.length ≤ fuel →
      (splitPartsAux hl fuel text).countP
          (fun p => decide (toLowerList p = toLowerList hl)) =
        countOccCI hl fuel text := by
  have hlow : toLowerList hl ≠ [] := by
    cases hl with
    | nil => exact absurd rfl hhl
    | cons a l => simp [toLowerList]
  intro fuel
  induction fuel with
  | zero =>
    intro text hlen
    have htext : text = [] := List.length_eq_zero.mp (Nat.le_zero.mp hlen)
    subst htext
    have hne : toLowerList ([] : List Char) ≠ toLowerList hl := by
      simp only [toLowerList, List.map_nil]
      exact fun h => hlow h.symm
    simp [splitPartsAux, countOccCI, List.countP_cons, hne]
  | succ n ih =>
    intro text hlen
    simp only [splitPartsAux, countOccCI]
    cases hidx : firstIdxCI hl text with
    | none =>
      have hne : toLowerList text ≠ toLowerList hl := by
        intro h
        have hpf : (toLowerList hl).isPrefixOf (toLowerList text) = true := by
          rw [h]
          exact List.isPrefixOf_iff_prefix.mpr (List.prefix_refl _)
        rw [firstIdxOf_none_excludes (toLowerList hl) (toLowerList text) hidx] at hpf
        exact Bool.noConfusion hpf
      simp [List.countP_cons, hne]
    | some i =>
      have hpos : 1 ≤ hl.length := by
        cases hl with
        | nil => exact absurd rfl hhl
        | cons a l => simp
      have hrec : ((text.drop i).drop hl.length).length ≤ n := by
        simp only [List.length_drop]
        omega
      have hpre : toLowerList (text.take i) ≠ toLowerList hl := by
        intro h
        rcases Nat.eq_zero_or_pos i with hiz | hip
        · subst hiz
          simp only [List.take_zero, toLowerList, List.map_nil] at h
          exact hlow h.symm
        · have hpf : (toLowerList hl).isPrefixOf (toLowerList text) = true := by
            rw [← h, show toLowerList (text.take i) = (toLowerList text).take i by
              simp [toLowerList, List.map_take]]
            exact List.isPrefixOf_iff_prefix.mpr (List.take_prefix _ _)
          rw [firstIdxOf_pos_excludes (toLowerList hl) (toLowerList text) i hidx hip] at hpf
          exact Bool.noConfusion hpf
      have hmid : toLowerList ((text.drop i).take hl.length) = toLowerList hl := by
        have hm := firstIdxOf_match (toLowerList hl) (toLowerList text) i hidx
        calc toLowerList ((text.drop i).take hl.length)
            = ((toLowerList text).drop i).take ((toLowerList hl).length) := by
              simp [toLowerList, List.map_take, List.map_drop, List.length_map]
          _ = toLowerList hl := hm
      simp only [List.countP_cons, ih _ hrec]
      simp [hpre, hmid]
      omega

/-- C7 counterexample: the claim "the rendered segmentation contains T as an
isolated emphasized span covering exactly the first occurrence" is false:
the split is global (`g` flag), so for headline "Go go" with highlight "go"
(ASCII, metacharacter-free, a case-insensitive substring — inputs on which
the model is exact) both occurrences are emphasized, not only the first. -/
theorem renderTextContent_counterexample :
    asciiOnly "Go go" = true ∧ regexSafe (jsTrimS "go") = true ∧
    includesSub (jsToLower "Go go") (jsToLower (jsTrimS "go")) = true ∧
    renderTextContent "Go go" "go" =
      [("", false), ("Go", true), (" ", false), ("go", true), ("", false)] ∧
    (renderTextContent "Go go" "go").countP (fun seg => seg.2) = 2 := by
  refine ⟨rfl, rfl, rfl, ?_, rfl⟩
  decide

/-- C7 amended: for ASCII headline H and highlight T with a metacharacter-
free trimmed highlight (the inputs on which the renderer's `RegExp` is the
literal case-insensitive matcher this embedding models; metacharacter
highlights are matched as regex patterns, and an invalid one makes the
renderer throw): when the trimmed highlight is a nonempty case-insensitive
substring of H, the rendered segmentation concatenates back to exactly H,
contains at least one emphasized span, every emphasized span is
case-insensitively equal to T, and the number of emphasized spans equals the
number of leftmost non-overlapping case-insensitive occurrences of T in H —
every occurrence is emphasized, not only the first; when T is empty or not a
substring, the renderer yields the single unmodified plain segment H (and in
particular does not throw, the regex never being constructed). -/
theorem renderTextContent_contract :
    (∀ (H T : String),
      asciiOnly H = true → asciiOnly T = true →
      regexSafe (jsTrimS T) = true →
      jsTrimS T ≠ "" →
      includesSub (jsToLower H) (jsToLower (jsTrimS T)) = true →
      ((renderTextContent H T).map (fun seg => seg.1.data)).flatten = H.data ∧
      (∃ seg ∈ renderTextContent H T, seg.2 = true) ∧
      (∀ seg ∈ renderTextContent H T, seg.2 = true →
        jsToLower seg.1 = jsToLower (jsTrimS T)) ∧
      (renderTextContent H T).countP (fun seg => seg.2) =
        countOccurrencesCI (jsTrimS T).data H.data) ∧
    (∀ (H T : String),
      asciiOnly H = true → asciiOnly T = true →
      jsTrimS T = "" ∨ includesSub (jsToLower H) (jsToLower (jsTrimS T)) = false →
      renderTextContent H T = [(H, false)]) := by
  constructor
  · intro H T hascH hascT hmeta hne hinc
    have hdata : (jsTrimS T).data ≠ [] := by
      intro h
      exact hne (show jsTrimS T = "" from String.ext h)
    have hrender : renderTextContent H T =
        (splitParts (jsTrimS T).data H.data).map fun p =>
          (String.mk p, decide (jsToLower (String.mk p) = jsToLower (jsTrimS T))) := by
      simp only [renderTextContent]
      rw [if_neg hne, if_pos hinc]
    refine ⟨?_, ?_, ?_, ?_⟩
    · rw [hrender, List.map_map]
      have : ((fun seg : String × Bool => seg.1.data) ∘
          fun p => (String.mk p, decide (jsToLower (String.mk p) = jsToLower (jsTrimS T)))) =
          (id : List Char → List Char) := rfl
      rw [this]
      rw [List.map_id]
      exact splitPartsAux_flatten hdata _ _ (Nat.le_succ _)
    · -- the matched slice at the first occurrence is an emphasized segment
      have hsome : (firstIdxCI (jsTrimS T).data H.data).isSome := by
        simpa [includesSub, firstIdxCI, jsToLower, toLowerList] using hinc
      rcases Option.isSome_iff_exists.mp hsome with ⟨i, hidx⟩
      have hmatch : toLowerList ((H.data.drop i).take (jsTrimS T).data.length) =
          toLowerList (jsTrimS T).data := by
        have hm := firstIdxOf_match (toLowerList (jsTrimS T).data)
          (toLowerList H.data) i hidx
        calc toLowerList ((H.data.drop i).take (jsTrimS T).data.length)
            = ((toLowerList H.data).drop i).take ((toLowerList (jsTrimS T).data).length) := by
              simp [toLowerList, List.map_take, List.map_drop]
          _ = toLowerList (jsTrimS T).data := hm
      have hflag : decide (jsToLower (String.mk ((H.data.drop i).take (jsTrimS T).data.length)) =
          jsToLower (jsTrimS T)) = true := by
        rw [decide_eq_true_eq]
        show String.mk (toLowerList ((H.data.drop i).take (jsTrimS T).data.length)) =
          String.mk (toLowerList (jsTrimS T).data)
        exact congrArg String.mk hmatch
      refine ⟨(String.mk ((H.data.drop i).take (jsTrimS T).data.length),
        decide (jsToLower (String.mk ((H.data.drop i).take (jsTrimS T).data.length)) =
          jsToLower (jsTrimS T))), ?_, hflag⟩
      rw [hrender]
      apply List.mem_map_of_mem
      have hunfold : splitParts (jsTrimS T).data H.data =
          H.data.take i :: (H.data.drop i).take (jsTrimS T).data.length ::
            splitPartsAux (jsTrimS T).data (H.data.length)
              ((H.data.drop i).drop (jsTrimS T).data.length) := by
        simp only [splitParts, splitPartsAux, hidx]
      rw [hunfold]
      exact List.mem_cons_of_mem _ (List.mem_cons_self _ _)
    · intro seg hmem hflag
      rw [hrender] at hmem
      rcases List.mem_map.mp hmem with ⟨p, _, rfl⟩
      simpa [decide_eq_true_eq] using hflag
    · -- emphasized-span count = leftmost non-overlapping occurrence count
      rw [hrender, List.countP_map]
      have hfn : ((fun seg : String × Bool => seg.2) ∘ fun p : List Char =>
          (String.mk p, decide (jsToLower (String.mk p) = jsToLower (jsTrimS T)))) =
          fun p : List Char => decide (toLowerList p = toLowerList (jsTrimS T).data) := by
        funext p
        show decide (String.mk (toLowerList p) = String.mk (toLowerList (jsTrimS T).data)) = _
        refine decide_eq_decide.mpr ⟨fun h => ?_, fun h => congrArg String.mk h⟩
        injection h
      rw [hfn]
      exact splitPartsAux_countP (jsTrimS T).data hdata _ _ (Nat.le_succ _)
  · intro H T _ _ h
    by_cases h0 : jsTrimS T = ""
    · simp [renderTextContent, h0]
    · rcases h with h | h
      · exact absurd h h0
      · simp [renderTextContent, if_neg h0, h]

theorem renderTextContent_contract_witness :
    (((renderTextContent "Fast and simple" "simple").map (fun seg => seg.1.data)).flatten =
        ("Fast and simple" : String).data ∧
      (∃ seg ∈ renderTextContent "Fast and simple" "simple", seg.2 = true) ∧
      (∀ seg ∈ renderTextContent "Fast and simple" "simple", seg.2 = true →
        jsToLower seg.1 = jsToLower (jsTrimS "simple")) ∧
      (renderTextContent "Fast and simple" "simple").countP (fun seg => seg.2) =
        countOccurrencesCI (jsTrimS "simple").data ("Fast and simple" : String).data) ∧
    renderTextContent "Fast and simple" "absent" = [("Fast and simple", false)] :=
  ⟨renderTextContent_contract.1 "Fast and simple" "simple"
      (by decide) (by decide) (by decide) (by decide) rfl,
   renderTextContent_contract.2 "Fast and simple" "absent"
      (by decide) (by decide) (Or.inr rfl)⟩

end AsoForge
